import Mathlib

set_option linter.unusedVariables false
set_option linter.unnecessarySeqFocus false

/-!
Shallow embedding of the log ingestion and query service
(backend/src/services/log.service.js, backend/src/db/db.service.js,
backend/src/controllers/log.controller.js).

JavaScript timestamp parsing (`new Date(s).getTime()`) is modelled by an
abstract parameter `getTime : String → Option Int`, where `none` stands for
NaN (an unparseable date) and `some t` for the finite epoch-milliseconds
value.  Every definition that the source derives from `Date` parsing takes
this parameter; theorems quantify over it, and concrete witnesses use the
table-backed `demoGetTime` below.
-/

/-- JavaScript runtime values as far as the service observes them: null,
undefined, booleans, numbers (modelled as integers), strings, arrays and
plain objects (insertion-ordered field lists, first binding wins). -/
inductive JsValue where
  | vNull
  | vUndefined
  | vBool (b : Bool)
  | vNum (n : Int)
  | vStr (s : String)
  | vArr (elems : List JsValue)
  | vObj (fields : List (String × JsValue))

/-- Property lookup on an object's field list; absent keys read as undefined. -/
def lookupField : List (String × JsValue) → String → JsValue
  | [], _ => .vUndefined
  | (k, v) :: rest, name => if k == name then v else lookupField rest name

/-- Property read `body[name]`.  On a plain object it is a field lookup; on an
array (whose elements sit at numeric indices) and on every other value a
string-named property reads as undefined. -/
def getField : JsValue → String → JsValue
  | .vObj fields, name => lookupField fields name
  | _, _ => .vUndefined

/-- Whether `typeof v === 'string'`. -/
def JsValue.isStr : JsValue → Bool
  | .vStr _ => true
  | _ => false

/-- String coercion, used by the validator only on values already checked to
be strings (where `String(v)` is the identity). -/
def JsValue.strVal : JsValue → String
  | .vStr s => s
  | _ => ""

/-- One validated log record (the shape returned by `validateLogBody` and
stored by the db service). -/
structure LogEntry where
  level : String
  message : String
  resourceId : String
  timestamp : String
  traceId : String
  spanId : String
  commit : String
  metadata : List (String × JsValue)

/-- Whitespace characters removed by `String.prototype.trim` (the ASCII ones;
the service only ever receives ASCII filter values). -/
def isJsSpace (c : Char) : Bool :=
  c == ' ' || c == '\t' || c == '\n' || c == '\r' || c == '\x0b' || c == '\x0c'

/-- The character-list semantics of `value.trim()`. -/
def trimChars (l : List Char) : List Char :=
  ((l.dropWhile isJsSpace).reverse.dropWhile isJsSpace).reverse

/-- The character-list semantics of `value.toLowerCase()`. -/
def lowerChars (l : List Char) : List Char :=
  l.map Char.toLower

/-- Whether the second character list occurs at the head of the first. -/
def startsWithChars : List Char → List Char → Bool
  | _, [] => true
  | [], _ :: _ => false
  | a :: as, b :: bs => a == b && startsWithChars as bs

/-- The character-list semantics of `haystack.includes(needle)`. -/
def containsChars : List Char → List Char → Bool
  | [], need => need.isEmpty
  | a :: t, need => startsWithChars (a :: t) need || containsChars t need

/-- Message of the malformed-body rejection in `validateLogBody`. -/
def malformedMsg : String := "Request body must be a JSON object"

/-- The `LEVELS` constant of log.service.js. -/
def LEVELS : List String := ["error", "warn", "info", "debug"]

/-- The `REQUIRED_STRING_FIELDS` constant of log.service.js. -/
def REQUIRED_STRING_FIELDS : List String :=
  ["level", "message", "resourceId", "timestamp", "traceId", "spanId", "commit"]

/-- The `!body || typeof body !== 'object'` guard: only arrays and plain
objects pass (null has object type but is falsy; every other value has a
non-object type). -/
def isObjectLike : JsValue → Bool
  | .vArr _ => true
  | .vObj _ => true
  | _ => false

/-- The required-field loop of `validateLogBody`: each field must be present
(not undefined, not null) and be a string, reporting the first failure. -/
def checkRequiredFields (body : JsValue) : List String → Except String Unit
  | [] => .ok ()
  | f :: rest =>
    match getField body f with
    | .vUndefined => .error ("Missing required field: " ++ f)
    | .vNull => .error ("Missing required field: " ++ f)
    | .vStr _ => checkRequiredFields body rest
    | _ => .error ("Field \"" ++ f ++ "\" must be a string")

/-- log.service.js `validateLogBody`: malformed-body guard, required string
fields, level enum (lowercased), timestamp parseability, metadata shape;
returns the normalized entry with metadata defaulted to the empty object. -/
def validateLogBody (getTime : String → Option Int) (body : JsValue) :
    Except String LogEntry :=
  if isObjectLike body then
    match checkRequiredFields body REQUIRED_STRING_FIELDS with
    | .error m => .error m
    | .ok _ =>
      let level := String.mk (lowerChars ((getField body "level").strVal).data)
      if LEVELS.contains level then
        match getTime (getField body "timestamp").strVal with
        | none => .error "Invalid timestamp: must be valid ISO 8601 date string"
        | some _ =>
          match getField body "metadata" with
          | .vUndefined =>
            .ok { level := level
                  message := (getField body "message").strVal
                  resourceId := (getField body "resourceId").strVal
                  timestamp := (getField body "timestamp").strVal
                  traceId := (getField body "traceId").strVal
                  spanId := (getField body "spanId").strVal
                  commit := (getField body "commit").strVal
                  metadata := [] }
          | .vObj m =>
            .ok { level := level
                  message := (getField body "message").strVal
                  resourceId := (getField body "resourceId").strVal
                  timestamp := (getField body "timestamp").strVal
                  traceId := (getField body "traceId").strVal
                  spanId := (getField body "spanId").strVal
                  commit := (getField body "commit").strVal
                  metadata := m }
          | _ => .error "Field \"metadata\" must be an object"
      else
        .error ("Invalid level: must be one of " ++ String.intercalate ", " LEVELS)
  else
    .error malformedMsg

/-- A filter object as the service receives it: insertion-ordered bindings;
a `none` value stands for a binding whose value is null or undefined (skipped
by the query loop). -/
abbrev Filters := List (String × Option String)

/-- log.service.js `matchesFilter`: blank values always match; `level` is a
case-insensitive exact match; the id-like keys and `message` are
case-insensitive substring containment; the timestamp bounds compare parsed
epoch times, treating an unparseable bound as satisfied; unrecognized keys
always match. -/
def matchesFilter (getTime : String → Option Int) (log : LogEntry)
    (key value : String) : Bool :=
  if trimChars value.data == [] then true
  else
    let str := lowerChars (trimChars value.data)
    if key == "message" then containsChars (lowerChars log.message.data) str
    else if key == "level" then lowerChars log.level.data == str
    else if key == "resourceId" then containsChars (lowerChars log.resourceId.data) str
    else if key == "traceId" then containsChars (lowerChars log.traceId.data) str
    else if key == "spanId" then containsChars (lowerChars log.spanId.data) str
    else if key == "commit" then containsChars (lowerChars log.commit.data) str
    else if key == "timestamp_start" then
      match getTime value with
      | none => true
      | some s =>
        match getTime log.timestamp with
        | some t => decide (s ≤ t)
        | none => false
    else if key == "timestamp_end" then
      match getTime value with
      | none => true
      | some s =>
        match getTime log.timestamp with
        | some t => decide (t ≤ s)
        | none => false
    else true

/-- The per-entry loop body of `query`: every binding with a non-null value
must match (AND semantics, first failure rejects). -/
def logMatches (getTime : String → Option Int) (filters : Filters)
    (log : LogEntry) : Bool :=
  filters.all fun kv =>
    match kv.2 with
    | none => true
    | some v => matchesFilter getTime log kv.1 v

/-- Whether entry `a` strictly precedes entry `b` in descending order: the
comparator `new Date(b.timestamp) - new Date(a.timestamp)` is negative.  A NaN
comparator value orders neither way (the engine treats it as a tie). -/
def ltDesc (getTime : String → Option Int) (a b : LogEntry) : Bool :=
  match getTime a.timestamp, getTime b.timestamp with
  | some ka, some kb => decide (kb < ka)
  | _, _ => false

/-- Stable insertion of a later-arriving entry: it passes every earlier entry
it does not strictly precede. -/
def insertDesc (getTime : String → Option Int) (e : LogEntry) :
    List LogEntry → List LogEntry
  | [] => [e]
  | x :: xs =>
    if ltDesc getTime e x then e :: x :: xs else x :: insertDesc getTime e xs

/-- log.service.js `sortByTimestampDesc`, modelled as a stable sort with the
source's comparator (a stable sort is what `Array.prototype.sort` performs,
and any stable sort by the same comparator produces the same sequence). -/
def sortByTimestampDesc (getTime : String → Option Int)
    (logs : List LogEntry) : List LogEntry :=
  logs.foldl (fun acc e => insertDesc getTime e acc) []

/-- The pure part of log.service.js `query` applied to a snapshot already
read from the store; `none` models a null or non-object filters argument. -/
def queryOnSnapshot (getTime : String → Option Int) (filters : Option Filters)
    (logs : List LogEntry) : List LogEntry :=
  match filters with
  | none => sortByTimestampDesc getTime logs
  | some fs => sortByTimestampDesc getTime (logs.filter (logMatches getTime fs))

namespace DbService

/-- Observable states of the backing JSON file, abstracting the raw text:
absent, blank (whitespace only), unparseable JSON, JSON that parses to a
non-array value, and JSON that parses to an array of log records. -/
inductive FileContent where
  | absent
  | blank
  | badJson
  | jsonNonArray
  | jsonArray (logs : List LogEntry)

/-- Storage-layer failure (the propagated `JSON.parse` exception). -/
inductive DbError where
  | readFailed

/-- db.service.js `ensureDataFile`: a missing file is created holding the
JSON text of an empty array; an existing file is untouched. -/
def ensureDataFile : FileContent → FileContent
  | .absent => .jsonArray []
  | f => f

/-- db.service.js `readLogs`: ensures the file, then parses it.  Blank text
reads as the empty collection; unparseable JSON propagates the parse error;
parseable non-array JSON is coerced to the empty collection by the
`Array.isArray` guard.  Returns the file state alongside the result. -/
def readLogs (f : FileContent) : FileContent × Except DbError (List LogEntry) :=
  match ensureDataFile f with
  | .absent => (.jsonArray [], .ok [])
  | .blank => (.blank, .ok [])
  | .badJson => (.badJson, .error .readFailed)
  | .jsonNonArray => (.jsonNonArray, .ok [])
  | .jsonArray logs => (.jsonArray logs, .ok logs)

/-- db.service.js `appendLog`: ensure, read the whole collection, push the
new entry, write the whole collection back; a read failure propagates with
the durable state unchanged. -/
def appendLog (log : LogEntry) (f : FileContent) :
    FileContent × Except DbError LogEntry :=
  match readLogs (ensureDataFile f) with
  | (f2, .error e) => (f2, .error e)
  | (_, .ok logs) => (.jsonArray (logs ++ [log]), .ok log)

/-- The read phase of `appendLog` (everything before its first await point
completes the file read). -/
def appendReadPhase (f : FileContent) :
    FileContent × Except DbError (List LogEntry) :=
  readLogs (ensureDataFile f)

/-- The write phase of `appendLog`: the whole collection the call computed
from its own earlier snapshot is written back, replacing the file. -/
def appendWritePhase (snapshot : List LogEntry) (log : LogEntry) : FileContent :=
  .jsonArray (snapshot ++ [log])

/-- Two concurrent `appendLog` calls under the interleaving read₁, read₂,
write₁, write₂ — realizable because `appendLog` suspends between its file
read and file write and holds no lock.  The second write was computed from a
snapshot taken before the first write landed, so it overwrites it. -/
def racedAppends (e1 e2 : LogEntry) (f0 : FileContent) : FileContent :=
  match appendReadPhase f0 with
  | (f1, .error _) => f1
  | (f1, .ok snap1) =>
    match appendReadPhase f1 with
    | (f2, .error _) => f2
    | (_, .ok snap2) =>
      let afterFirstWrite := appendWritePhase snap1 e1
      let afterSecondWrite := appendWritePhase snap2 e2
      afterSecondWrite

/-- The same two `appendLog` calls run to completion one after the other. -/
def seqAppends (e1 e2 : LogEntry) (f0 : FileContent) : FileContent :=
  ((appendLog e2 (appendLog e1 f0).1)).1

end DbService

namespace LogService

/-- Error classes the ingestion path can surface: a `ValidationError` (whose
name the controller inspects) carrying its message, or a storage failure. -/
inductive IngestErr where
  | validation (msg : String)
  | storage

/-- log.service.js `ingest`: validate, then append; a validation failure
propagates before the store is touched, and an append failure propagates as
a storage error. -/
def ingest (getTime : String → Option Int) (body : JsValue)
    (f : DbService.FileContent) :
    DbService.FileContent × Except IngestErr LogEntry :=
  match validateLogBody getTime body with
  | .error m => (f, .error (.validation m))
  | .ok log =>
    match DbService.appendLog log f with
    | (f2, .error _) => (f2, .error .storage)
    | (f2, .ok stored) => (f2, .ok stored)

/-- log.service.js `query`: read the whole store, then (unless the filters
argument is null or not an object) keep the entries matching every binding,
and sort the result by timestamp descending. -/
def query (getTime : String → Option Int) (filters : Option Filters)
    (f : DbService.FileContent) :
    DbService.FileContent × Except DbService.DbError (List LogEntry) :=
  match DbService.readLogs f with
  | (f2, .error e) => (f2, .error e)
  | (f2, .ok logs) => (f2, .ok (queryOnSnapshot getTime filters logs))

end LogService

/-- Externally visible effects of one controller call, in program order. -/
inductive Effect where
  | appended (log : LogEntry)
  | published (log : LogEntry)

/-- The HTTP outcomes of the ingest controller. -/
inductive HttpResponse where
  | created (log : LogEntry)
  | badRequest (msg : String)
  | serverError

namespace LogController

/-- log.controller.js `ingest`: run the service ingest; on success broadcast
the stored entry (after the append) and answer 201; a `ValidationError`
answers 400 and any other failure 500, with no broadcast. -/
def ingest (getTime : String → Option Int) (body : JsValue)
    (f : DbService.FileContent) :
    DbService.FileContent × List Effect × HttpResponse :=
  match LogService.ingest getTime body f with
  | (f2, .error (.validation m)) => (f2, [], .badRequest m)
  | (f2, .error .storage) => (f2, [], .serverError)
  | (f2, .ok log) => (f2, [.appended log, .published log], .created log)

end LogController

/-- Epoch-millisecond values of the handful of ISO timestamps the concrete
witnesses use. -/
def demoTimes : List (String × Int) :=
  [("2024-01-14T10:00:00.000Z", 1705226400000),
   ("2024-01-15T10:00:00.000Z", 1705312800000),
   ("2024-01-15T11:00:00.000Z", 1705316400000),
   ("2024-01-15T12:00:00.000Z", 1705320000000),
   ("2024-01-15T13:00:00.000Z", 1705323600000),
   ("2024-01-15T14:00:00.000Z", 1705327200000)]

/-- A concrete instantiation of the abstract date parser: the tabulated ISO
strings parse to their epoch values, everything else is NaN. -/
def demoGetTime (s : String) : Option Int :=
  List.lookup s demoTimes

/-- Sample entry mirroring the error log of the service test fixtures. -/
def demoErrorLog : LogEntry :=
  { level := "error", message := "Database connection failed",
    resourceId := "server-1234", timestamp := "2024-01-15T14:00:00.000Z",
    traceId := "t1", spanId := "s1", commit := "c1", metadata := [] }

/-- Sample entry mirroring the info log of the service test fixtures. -/
def demoInfoLog : LogEntry :=
  { level := "info", message := "Request processed",
    resourceId := "server-1234", timestamp := "2024-01-15T12:00:00.000Z",
    traceId := "t2", spanId := "s2", commit := "c2", metadata := [] }

/-- Sample entry mirroring the warn log of the service test fixtures. -/
def demoWarnLog : LogEntry :=
  { level := "warn", message := "High memory usage",
    resourceId := "server-5678", timestamp := "2024-01-14T10:00:00.000Z",
    traceId := "t3", spanId := "s3", commit := "c3", metadata := [] }

/-- Sample store snapshot (storage order, not chronological). -/
def demoLogs : List LogEntry := [demoInfoLog, demoErrorLog, demoWarnLog]

/-- A request body that is valid except that its message is empty. -/
def demoEmptyMsgBody : JsValue :=
  .vObj [("level", .vStr "info"), ("message", .vStr ""),
         ("resourceId", .vStr "server-1"),
         ("timestamp", .vStr "2024-01-15T10:00:00.000Z"),
         ("traceId", .vStr "trace-1"), ("spanId", .vStr "span-1"),
         ("commit", .vStr "abc123")]

/-- The entry `validateLogBody` produces for `demoEmptyMsgBody`. -/
def demoEmptyMsgEntry : LogEntry :=
  { level := "info", message := "", resourceId := "server-1",
    timestamp := "2024-01-15T10:00:00.000Z", traceId := "trace-1",
    spanId := "span-1", commit := "abc123", metadata := [] }

example : validateLogBody demoGetTime demoEmptyMsgBody = .ok demoEmptyMsgEntry := rfl

example : queryOnSnapshot demoGetTime none demoLogs
    = [demoErrorLog, demoInfoLog, demoWarnLog] := rfl

example : queryOnSnapshot demoGetTime (some [("level", some "error")]) demoLogs
    = [demoErrorLog] := rfl

/-! Helper lemmas about the descending sort. -/

theorem mem_insertDesc (getTime : String → Option Int) (e a : LogEntry)
    (l : List LogEntry) : a ∈ insertDesc getTime e l ↔ a = e ∨ a ∈ l := by
  induction l with
  | nil => simp [insertDesc]
  | cons x xs ih =>
    by_cases h : ltDesc getTime e x = true
    · simp [insertDesc, h, List.mem_cons]
    · simp only [insertDesc, if_neg h, List.mem_cons, ih]
      tauto

theorem mem_foldl_insertDesc (getTime : String → Option Int) (a : LogEntry)
    (l acc : List LogEntry) :
    a ∈ List.foldl (fun acc e => insertDesc getTime e acc) acc l ↔
      a ∈ acc ∨ a ∈ l := by
  induction l generalizing acc with
  | nil => simp
  | cons x xs ih =>
    simp only [List.foldl_cons, ih, mem_insertDesc, List.mem_cons]
    tauto

theorem mem_sortByTimestampDesc (getTime : String → Option Int) (a : LogEntry)
    (l : List LogEntry) : a ∈ sortByTimestampDesc getTime l ↔ a ∈ l := by
  simp [sortByTimestampDesc, mem_foldl_insertDesc]

theorem ltDesc_asymm (getTime : String → Option Int) (a b : LogEntry)
    (h : ltDesc getTime a b = true) : ltDesc getTime b a = false := by
  cases hga : getTime a.timestamp <;> cases hgb : getTime b.timestamp <;>
    simp_all [ltDesc] <;> omega

theorem ltDesc_shift (getTime : String → Option Int) (e x y : LogEntry)
    (h1 : ltDesc getTime e x = true) (h2 : ltDesc getTime y x = false) :
    ltDesc getTime y e = false := by
  cases hge : getTime e.timestamp <;> cases hgx : getTime x.timestamp <;>
    cases hgy : getTime y.timestamp <;> simp_all [ltDesc] <;> omega

theorem pairwise_insertDesc (getTime : String → Option Int) (e : LogEntry)
    (l : List LogEntry)
    (h : l.Pairwise (fun a b => ltDesc getTime b a = false)) :
    (insertDesc getTime e l).Pairwise (fun a b => ltDesc getTime b a = false) := by
  induction l with
  | nil => simp [insertDesc]
  | cons x xs ih =>
    rcases List.pairwise_cons.1 h with ⟨hx, hxs⟩
    by_cases hc : ltDesc getTime e x = true
    · simp only [insertDesc, if_pos hc]
      refine List.pairwise_cons.2 ⟨?_, h⟩
      intro y hy
      rcases List.mem_cons.1 hy with rfl | hy2
      · exact ltDesc_asymm getTime e y hc
      · exact ltDesc_shift getTime e x y hc (hx y hy2)
    · simp only [insertDesc, if_neg hc]
      refine List.pairwise_cons.2 ⟨?_, ih hxs⟩
      intro y hy
      rcases (mem_insertDesc getTime e y xs).1 hy with rfl | hy2
      · cases hb : ltDesc getTime y x
        · rfl
        · exact absurd hb hc
      · exact hx y hy2

theorem pairwise_foldl_insertDesc (getTime : String → Option Int)
    (l acc : List LogEntry)
    (h : acc.Pairwise (fun a b => ltDesc getTime b a = false)) :
    (List.foldl (fun acc e => insertDesc getTime e acc) acc l).Pairwise
      (fun a b => ltDesc getTime b a = false) := by
  induction l generalizing acc with
  | nil => simpa using h
  | cons x xs ih => exact ih _ (pairwise_insertDesc getTime x acc h)

theorem pairwise_sortByTimestampDesc (getTime : String → Option Int)
    (l : List LogEntry) :
    (sortByTimestampDesc getTime l).Pairwise
      (fun a b => ltDesc getTime b a = false) :=
  pairwise_foldl_insertDesc getTime l [] List.Pairwise.nil

theorem mem_queryOnSnapshot (getTime : String → Option Int)
    (filters : Option Filters) (logs : List LogEntry) (a : LogEntry) :
    a ∈ queryOnSnapshot getTime filters logs ↔
      match filters with
      | none => a ∈ logs
      | some fs => a ∈ logs ∧ logMatches getTime fs a = true := by
  cases filters with
  | none => simp [queryOnSnapshot, mem_sortByTimestampDesc]
  | some fs => simp [queryOnSnapshot, mem_sortByTimestampDesc, List.mem_filter]

theorem pairwise_queryOnSnapshot (getTime : String → Option Int)
    (filters : Option Filters) (logs : List LogEntry) :
    (queryOnSnapshot getTime filters logs).Pairwise
      (fun a b => ltDesc getTime b a = false) := by
  cases filters <;> exact pairwise_sortByTimestampDesc getTime _

theorem mem_query_some (getTime : String → Option Int) (fs : Filters)
    (logs : List LogEntry) (a : LogEntry) :
    a ∈ queryOnSnapshot getTime (some fs) logs ↔
      a ∈ logs ∧ logMatches getTime fs a = true :=
  mem_queryOnSnapshot getTime (some fs) logs a

theorem mem_of_mem_queryOnSnapshot (getTime : String → Option Int)
    (filters : Option Filters) (logs : List LogEntry) (a : LogEntry)
    (h : a ∈ queryOnSnapshot getTime filters logs) : a ∈ logs := by
  cases filters with
  | none => exact (mem_queryOnSnapshot getTime none logs a).1 h
  | some fs => exact ((mem_query_some getTime fs logs a).1 h).1

/-! Helper lemmas about filter matching. -/

theorem matchesFilter_blank (getTime : String → Option Int) (log : LogEntry)
    (key v : String) (h : trimChars v.data = []) :
    matchesFilter getTime log key v = true := by
  simp [matchesFilter, h]

theorem logMatches_iff (getTime : String → Option Int) (fs : Filters)
    (log : LogEntry) :
    logMatches getTime fs log = true ↔
      ∀ k v, (k, some v) ∈ fs → trimChars v.data ≠ [] →
        matchesFilter getTime log k v = true := by
  unfold logMatches
  rw [List.all_eq_true]
  constructor
  · intro h k v hkv hnb
    simpa using h (k, some v) hkv
  · intro h kv hkv
    rcases kv with ⟨k, vo⟩
    cases vo with
    | none => rfl
    | some v =>
      by_cases hb : trimChars v.data = []
      · simpa using matchesFilter_blank getTime log k v hb
      · simpa using h k v hkv hb

theorem logMatches_append (getTime : String → Option Int) (fs1 fs2 : Filters)
    (log : LogEntry) :
    logMatches getTime (fs1 ++ fs2) log =
      (logMatches getTime fs1 log && logMatches getTime fs2 log) := by
  simp [logMatches, List.all_append]

/-- C1: for every snapshot of entries whose timestamps all parse to finite
instants and every filter set, the query result is sorted by parsed timestamp
descending — any returned entry A that precedes a returned entry B has a
parsed timestamp greater than or equal to B's parsed timestamp. -/
theorem query_sorted_by_timestamp_desc (getTime : String → Option Int)
    (logs : List LogEntry) (filters : Option Filters)
    (hall : ∀ e ∈ logs, (getTime e.timestamp).isSome = true)
    (i j : Fin (queryOnSnapshot getTime filters logs).length) (hij : i < j) :
    ∃ a b : Int,
      getTime ((queryOnSnapshot getTime filters logs).get i).timestamp = some a ∧
      getTime ((queryOnSnapshot getTime filters logs).get j).timestamp = some b ∧
      b ≤ a := by
  have hp := pairwise_queryOnSnapshot getTime filters logs
  have hrel := List.pairwise_iff_get.1 hp i j hij
  have hmemi : (queryOnSnapshot getTime filters logs).get i ∈ logs :=
    mem_of_mem_queryOnSnapshot getTime filters logs _
      (List.get_mem _ i.1 i.2)
  have hmemj : (queryOnSnapshot getTime filters logs).get j ∈ logs :=
    mem_of_mem_queryOnSnapshot getTime filters logs _
      (List.get_mem _ j.1 j.2)
  obtain ⟨a, ha⟩ := Option.isSome_iff_exists.1 (hall _ hmemi)
  obtain ⟨b, hb⟩ := Option.isSome_iff_exists.1 (hall _ hmemj)
  refine ⟨a, b, ha, hb, ?_⟩
  simp only [ltDesc, ha, hb, decide_eq_false_iff_not, not_lt] at hrel
  exact hrel

/-- Witness for C1 at a concrete snapshot: in the unfiltered query over the
demo store, the entry at position 0 has a parsed timestamp at least that of
the entry at position 1. -/
theorem query_sorted_by_timestamp_desc_witness :
    ∃ a b : Int,
      demoGetTime ((queryOnSnapshot demoGetTime none demoLogs).get
        ⟨0, by decide⟩).timestamp = some a ∧
      demoGetTime ((queryOnSnapshot demoGetTime none demoLogs).get
        ⟨1, by decide⟩).timestamp = some b ∧
      b ≤ a :=
  query_sorted_by_timestamp_desc demoGetTime demoLogs none
    (by
      intro e he
      simp only [demoLogs, List.mem_cons, List.not_mem_nil, or_false] at he
      rcases he with rfl | rfl | rfl <;> rfl)
    ⟨0, by decide⟩ ⟨1, by decide⟩ (by decide)

/-- C3: an entry of the snapshot is in the query result exactly when it
satisfies every supplied non-blank filter; consequently querying with the
union of two filter sets over distinct keys selects exactly the entries
common to the two individual query results. -/
theorem query_and_filter_semantics (getTime : String → Option Int)
    (logs : List LogEntry) (e : LogEntry) (he : e ∈ logs) :
    (∀ fs : Filters,
      e ∈ queryOnSnapshot getTime (some fs) logs ↔
        ∀ k v, (k, some v) ∈ fs → trimChars v.data ≠ [] →
          matchesFilter getTime e k v = true)
    ∧ (∀ fs1 fs2 : Filters,
        (∀ k, k ∈ fs1.map Prod.fst → k ∉ fs2.map Prod.fst) →
        (e ∈ queryOnSnapshot getTime (some (fs1 ++ fs2)) logs ↔
          e ∈ queryOnSnapshot getTime (some fs1) logs ∧
          e ∈ queryOnSnapshot getTime (some fs2) logs)) := by
  constructor
  · intro fs
    rw [mem_query_some]
    constructor
    · intro h
      exact (logMatches_iff getTime fs e).1 h.2
    · intro h
      exact ⟨he, (logMatches_iff getTime fs e).2 h⟩
  · intro fs1 fs2 hdisj
    rw [mem_query_some, mem_query_some, mem_query_some, logMatches_append]
    simp only [Bool.and_eq_true]
    tauto

/-- Witness for C3: combining the level filter with the resourceId filter
over the demo store selects exactly the entries common to the two individual
results. -/
theorem query_and_filter_semantics_witness :
    demoErrorLog ∈ queryOnSnapshot demoGetTime
        (some [("level", some "error"), ("resourceId", some "1234")]) demoLogs ↔
      demoErrorLog ∈ queryOnSnapshot demoGetTime
        (some [("level", some "error")]) demoLogs ∧
      demoErrorLog ∈ queryOnSnapshot demoGetTime
        (some [("resourceId", some "1234")]) demoLogs :=
  (query_and_filter_semantics demoGetTime demoLogs demoErrorLog
      (List.mem_cons_of_mem _ (List.mem_cons_self _ _))).2
    [("level", some "error")] [("resourceId", some "1234")]
    (by
      intro k hk
      simp only [List.map, List.mem_cons, List.not_mem_nil, or_false] at hk
      subst hk
      decide)

/-- C4: for an entry whose timestamp parses, a timestamp_start filter admits
it exactly when the entry's parsed timestamp is at least the parsed bound and
a timestamp_end filter exactly when it is at most the parsed bound (inclusive
bounds); a bound that fails to parse is satisfied unconditionally, never
rejecting the query. -/
theorem timestamp_bounds_semantics (getTime : String → Option Int)
    (log : LogEntry) (v : String) :
    (getTime v = none →
      matchesFilter getTime log "timestamp_start" v = true ∧
      matchesFilter getTime log "timestamp_end" v = true)
    ∧ (∀ t s : Int, getTime log.timestamp = some t → getTime v = some s →
        trimChars v.data ≠ [] →
        (matchesFilter getTime log "timestamp_start" v = true ↔ s ≤ t) ∧
        (matchesFilter getTime log "timestamp_end" v = true ↔ t ≤ s)) := by
  constructor
  · intro hv
    by_cases hb : trimChars v.data = []
    · exact ⟨matchesFilter_blank getTime log _ v hb,
        matchesFilter_blank getTime log _ v hb⟩
    · constructor <;> simp [matchesFilter, hb, hv]
  · intro t s ht hv hb
    constructor <;> simp [matchesFilter, hb, hv, ht]

/-- Witness for C4: an unparseable bound is satisfied, and a parseable bound
admits the demo info entry exactly when the bound is at most its parsed
timestamp. -/
theorem timestamp_bounds_semantics_witness :
    matchesFilter demoGetTime demoInfoLog "timestamp_start" "not-a-date" = true
    ∧ (matchesFilter demoGetTime demoInfoLog "timestamp_start"
          "2024-01-15T11:00:00.000Z" = true
        ↔ (1705316400000 : Int) ≤ 1705320000000) := by
  constructor
  · exact ((timestamp_bounds_semantics demoGetTime demoInfoLog "not-a-date").1
      rfl).1
  · exact ((timestamp_bounds_semantics demoGetTime demoInfoLog
      "2024-01-15T11:00:00.000Z").2 1705320000000 1705316400000 rfl rfl
      (by decide)).1

/-- C2: a validation failure propagates with the store untouched and nothing
appended or published; an append failure propagates as a server error with
nothing published; and whenever an entry is published the trace shows its
append succeeding first (publish-after-persist). -/
theorem ingest_pipeline_discipline (getTime : String → Option Int)
    (body : JsValue) (f : DbService.FileContent) :
    (∀ m, validateLogBody getTime body = .error m →
      LogController.ingest getTime body f = (f, [], .badRequest m))
    ∧ (∀ log f2, validateLogBody getTime body = .ok log →
        DbService.appendLog log f = (f2, .error .readFailed) →
        LogController.ingest getTime body f = (f2, [], .serverError))
    ∧ (∀ e, Effect.published e ∈ (LogController.ingest getTime body f).2.1 →
        (LogController.ingest getTime body f).2.1 =
          [.appended e, .published e] ∧
        (LogService.ingest getTime body f).2 = .ok e) := by
  cases hv : validateLogBody getTime body with
  | error m0 =>
    refine ⟨?_, ?_, ?_⟩
    · intro m hm
      cases hm
      simp [LogController.ingest, LogService.ingest, hv]
    · intro log f2 hok
      cases hok
    · intro e hmem
      simp [LogController.ingest, LogService.ingest, hv] at hmem
  | ok log0 =>
    cases ha : DbService.appendLog log0 f with
    | mk fa ra =>
      cases ra with
      | error er =>
        refine ⟨?_, ?_, ?_⟩
        · intro m hm
          cases hm
        · intro log f2 hok hap
          cases hok
          rw [ha] at hap
          cases hap
          simp [LogController.ingest, LogService.ingest, hv, ha]
        · intro e hmem
          simp [LogController.ingest, LogService.ingest, hv, ha] at hmem
      | ok stored =>
        refine ⟨?_, ?_, ?_⟩
        · intro m hm
          cases hm
        · intro log f2 hok hap
          cases hok
          rw [ha] at hap
          cases hap
        · intro e hmem
          simp only [LogController.ingest, LogService.ingest, hv, ha] at hmem ⊢
          simp only [List.mem_cons, List.not_mem_nil, or_false] at hmem
          rcases hmem with h | h
          · cases h
          · cases h
            exact ⟨rfl, rfl⟩

/-- Witness for C2 at a concrete input: ingesting a null body leaves the
store unchanged, produces no effects and answers with the malformed-body
validation error. -/
theorem ingest_pipeline_discipline_witness :
    LogController.ingest demoGetTime .vNull (.jsonArray []) =
      (.jsonArray [], [], .badRequest malformedMsg) :=
  (ingest_pipeline_discipline demoGetTime .vNull (.jsonArray [])).1
    malformedMsg rfl

/-- Counterexample for C5: backing content that is valid JSON but not a
collection cannot be read as a collection of entries, yet readLogs answers
the empty result instead of a storage error. -/
theorem readLogs_nonarray_counterexample :
    (DbService.readLogs .jsonNonArray).2 = .ok ([] : List LogEntry) := rfl

/-- C5 (amended): readLogs fails with a storage error when the backing text
is unparseable (corrupt encoding), but backing content that parses to a
non-array value is silently read as the empty collection. -/
theorem readLogs_corrupt_state_behavior :
    DbService.readLogs .badJson = (.badJson, .error .readFailed)
    ∧ DbService.readLogs .jsonNonArray = (.jsonNonArray, .ok []) :=
  ⟨rfl, rfl⟩

/-- Counterexample for C6: an array body does not fail with the
malformed-body classification — it fails with the missing-field message for
the first required field. -/
theorem array_body_counterexample :
    validateLogBody demoGetTime (.vArr []) =
      .error "Missing required field: level"
    ∧ "Missing required field: level" ≠ malformedMsg :=
  ⟨rfl, by decide⟩

/-- C6 (amended): null, undefined and non-object scalars fail validation
with the malformed-body classification, while an array body passes the
malformed-body guard and instead fails with the missing-field classification
for the first required field. -/
theorem malformed_body_classification (getTime : String → Option Int) :
    validateLogBody getTime .vNull = .error malformedMsg
    ∧ validateLogBody getTime .vUndefined = .error malformedMsg
    ∧ (∀ b, validateLogBody getTime (.vBool b) = .error malformedMsg)
    ∧ (∀ n, validateLogBody getTime (.vNum n) = .error malformedMsg)
    ∧ (∀ s, validateLogBody getTime (.vStr s) = .error malformedMsg)
    ∧ (∀ xs, validateLogBody getTime (.vArr xs) =
        .error "Missing required field: level") :=
  ⟨rfl, rfl, fun _ => rfl, fun _ => rfl, fun _ => rfl, fun _ => rfl⟩

theorem checkRequiredFields_ok_isStr (body : JsValue) (fields : List String)
    (h : checkRequiredFields body fields = .ok ()) :
    ∀ f ∈ fields, (getField body f).isStr = true := by
  induction fields with
  | nil => intro f hf; cases hf
  | cons g rest ih =>
    intro f hf
    rcases List.mem_cons.1 hf with rfl | hf2
    · unfold checkRequiredFields at h
      cases hg : getField body f <;> rw [hg] at h <;> first | cases h | rfl
    · unfold checkRequiredFields at h
      cases hg : getField body g <;> rw [hg] at h <;>
        first | cases h | exact ih h f hf2

/-- Counterexample for C7: a body whose message is the empty string is
accepted by the validator, and the resulting entry's message is empty. -/
theorem empty_message_accepted_counterexample :
    validateLogBody demoGetTime demoEmptyMsgBody = .ok demoEmptyMsgEntry
    ∧ demoEmptyMsgEntry.message = "" :=
  ⟨rfl, rfl⟩

/-- C7 (amended): every input the validator accepts carries its message
field as a text value, copied verbatim into the resulting entry — but the
empty string is accepted, so the message is not guaranteed non-empty. -/
theorem accepted_message_is_input_text (getTime : String → Option Int)
    (body : JsValue) (e : LogEntry)
    (h : validateLogBody getTime body = .ok e) :
    getField body "message" = .vStr e.message := by
  unfold validateLogBody at h
  by_cases hobj : isObjectLike body = true
  · rw [if_pos hobj] at h
    cases hc : checkRequiredFields body REQUIRED_STRING_FIELDS with
    | error m => rw [hc] at h; cases h
    | ok u =>
      cases u
      rw [hc] at h
      have hstr := checkRequiredFields_ok_isStr body REQUIRED_STRING_FIELDS hc
        "message" (by simp [REQUIRED_STRING_FIELDS])
      cases hgm : getField body "message" <;> rw [hgm] at hstr <;>
        try cases hstr
      rename_i msg
      by_cases hl : LEVELS.contains
          (String.mk (lowerChars ((getField body "level").strVal).data)) = true
      · rw [if_pos hl] at h
        cases hgt : getTime (getField body "timestamp").strVal with
        | none => rw [hgt] at h; cases h
        | some t0 =>
          rw [hgt] at h
          cases hmet : getField body "metadata" <;> rw [hmet] at h <;>
            cases h <;> simp [hgm, JsValue.strVal]
      · rw [if_neg hl] at h
        cases h
  · rw [if_neg hobj] at h
    cases h

/-- Witness for C7 at a concrete accepted body: the demo body's message
field is the text value carried into the accepted entry. -/
theorem accepted_message_is_input_text_witness :
    getField demoEmptyMsgBody "message" = .vStr demoEmptyMsgEntry.message :=
  accepted_message_is_input_text demoGetTime demoEmptyMsgBody
    demoEmptyMsgEntry rfl

/-- C8: when nothing has ever been written the backing collection is
auto-initialized to empty on first access, and readLogs succeeds with the
empty sequence rather than failing. -/
theorem readLogs_auto_initializes :
    DbService.ensureDataFile .absent = .jsonArray []
    ∧ DbService.readLogs .absent = (.jsonArray [], .ok []) :=
  ⟨rfl, rfl⟩

/-- C9: two concurrent appendLog calls interleaved as read₁, read₂, write₁,
write₂ on an initially empty store leave only the second entry durable (the
first write is lost), whereas the serialized execution stores both — the
code performs no serialization, so concurrent appends do not behave as if
serialized. -/
theorem raced_appends_lose_first_entry (e1 e2 : LogEntry) :
    DbService.racedAppends e1 e2 (.jsonArray []) = .jsonArray [e2]
    ∧ DbService.seqAppends e1 e2 (.jsonArray []) = .jsonArray [e1, e2] :=
  ⟨rfl, rfl⟩

/-- C10: querying with a null or non-object filter set never fails and is
identical to querying with the empty filter set — the whole snapshot sorted
by parsed timestamp descending. -/
theorem query_null_filters_equiv (getTime : String → Option Int) :
    (∀ f, LogService.query getTime none f =
        LogService.query getTime (some []) f)
    ∧ (∀ logs, queryOnSnapshot getTime none logs =
        sortByTimestampDesc getTime logs) := by
  constructor
  · intro f
    unfold LogService.query
    cases hr : DbService.readLogs f with
    | mk f2 r =>
      cases r with
      | error e => rfl
      | ok logs =>
        have hfil : logs.filter (logMatches getTime []) = logs := by
          have hpred : logMatches getTime [] = fun _ => true := rfl
          rw [hpred, List.filter_true]
        simp only [queryOnSnapshot, hfil]
  · intro logs
    rfl
